import Mathlib

/-!
Verification of the legal-PDF metadata extraction engine (src/app.py).

The Python source is shallowly embedded here.  Document text is modelled as
`List Char` (one entry per code point, matching Python `str` indexing for the
ASCII texts the extractor patterns deal with).  Regular-expression scans are
embedded as explicit matchers that implement the concrete patterns appearing
in the source, including greedy repetition and the backtracking behaviour
those particular patterns can exhibit.  `datetime.strptime`/`strftime` are
embedded for exactly the three format strings used by the source; the
rendered canonical date is modelled as the zero-padded ISO form
`YYYY-MM-DD` (all dates the pipeline parses come from four-digit-year
matches, where this agrees with CPython).
-/

namespace App

/-- Document text: a Python `str` as its list of code points. -/
abbrev Text := List Char

/-- Membership of a character in Python's `\s` class (ASCII range), which is
also what `str.strip()` removes. -/
def isSpaceC (c : Char) : Bool :=
  c = ' ' || c = '\t' || c = '\n' || c = '\r' || c = '\x0b' || c = '\x0c'

/-- Membership in Python's `\w` class (ASCII range): letters, digits, `_`. -/
def isWordC (c : Char) : Bool :=
  c.isAlphanum || c = '_'

/-- Membership in Python's `\d` class (ASCII range). -/
def isDigitC (c : Char) : Bool :=
  c.isDigit

/-- Membership in the class `[A-Za-z]`. -/
def isAlphaC (c : Char) : Bool :=
  c.isAlpha

/-- Python `str.strip()`: remove leading and trailing whitespace. -/
def pyStrip (s : Text) : Text :=
  ((s.dropWhile isSpaceC).reverse.dropWhile isSpaceC).reverse

/-- Python `str.lower()` (ASCII). -/
def pyLower (s : Text) : Text :=
  s.map Char.toLower

/-- Python `needle in hay` on strings: contiguous-substring test. -/
def isSubstr (needle hay : Text) : Bool :=
  hay.tails.any (fun tl => needle.isPrefixOf tl)

/-- Python `sep.join(parts)`. -/
def joinSep (sep : Text) : List Text → Text
  | [] => []
  | [x] => x
  | x :: y :: rest => x ++ sep ++ joinSep sep (y :: rest)

/-- Python slice `t[a:b]` for `0 ≤ a`. -/
def sliceT (t : Text) (a b : Nat) : Text :=
  (t.drop a).take (b - a)

/-- Length of the maximal run of characters satisfying `p` starting at
index `i` of `t`. -/
def runLen (p : Char → Bool) (t : Text) (i : Nat) : Nat :=
  ((t.drop i).takeWhile p).length

/-- Does the character at index `i` (if any) satisfy `p`? -/
def testAt (p : Char → Bool) (t : Text) (i : Nat) : Bool :=
  (t[i]?).any p

/-- Is the character at index `i` exactly `c`? -/
def isCh (t : Text) (i : Nat) (c : Char) : Bool :=
  t[i]? = some c

/-- Case-sensitive literal match of `lit` at index `i` of `t`. -/
def litAt (lit : Text) (t : Text) (i : Nat) : Bool :=
  match lit with
  | [] => true
  | c :: cs => isCh t i c && litAt cs t (i + 1)

/-- Case-insensitive (ASCII) literal match of `lit` at index `i` of `t`. -/
def litAtCI (lit : Text) (t : Text) (i : Nat) : Bool :=
  match lit with
  | [] => true
  | c :: cs => (t[i]?).any (fun d => d.toLower = c.toLower) && litAtCI cs t (i + 1)

/-- Word boundary `\b` immediately before a word character at index `i`:
holds when `i` is at the start of the text or the previous character is not
a word character. -/
def noWordBefore (t : Text) (i : Nat) : Bool :=
  match i with
  | 0 => true
  | j + 1 =>
    match t[j]? with
    | some c => !isWordC c
    | none => true

/-- Word boundary `\b` immediately after a word character ending at index
`i`: holds when `i` is past the end of the text or the character at `i` is
not a word character. -/
def noWordAt (t : Text) (i : Nat) : Bool :=
  match t[i]? with
  | some c => !isWordC c
  | none => true

/-- One content element of the parsed document: the dict built by
`extract_elements_from_page`.  Keys that a given element kind does not
carry are `none` (Python: the key is absent; `el.get("text", "")` then
substitutes the empty string).  The `metadata` dict is either
`{"bbox": [x0, top, x1, bottom]}` for word paragraphs or `{}`; bounding-box
coordinates are modelled as integers (their values never influence the
extraction logic). -/
structure ContentElement where
  type : Text
  text : Option Text
  html : Option Text
  image_filename : Option Text
  caption : Option Text
  page_number : Int
  metadata : Option (List Int)
deriving DecidableEq, Repr

/-- The parsed document: `{"content": [...]}`. -/
structure ParsedDocument where
  content : List ContentElement
deriving DecidableEq, Repr

/-- Auxiliary linear scan of `find_page` over the content list. -/
def find_page_go (text_snippet : Text) : List ContentElement → Int
  | [] => -1
  | el :: rest =>
    if isSubstr text_snippet (el.text.getD []) then el.page_number
    else find_page_go text_snippet rest

/-- Embedding of `find_page(text_snippet, parsed_doc)` (src/app.py lines
28-32): return the page number of the first content element whose
`el.get("text", "")` contains the snippet, else `-1`. -/
def find_page (text_snippet : Text) (parsed_doc : ParsedDocument) : Int :=
  find_page_go text_snippet parsed_doc.content

/-- The stop list `generic_terms` of `is_valid_name` (src/app.py line 35). -/
def generic_terms : List Text :=
  ["Contractor".toList, "Request".toList, "Works".toList, "Milestones".toList,
   "no.".toList, "Name".toList, "Company".toList]

/-- Embedding of `is_valid_name(name)` (src/app.py lines 34-36):
`name and name.strip() and name not in generic_terms`. -/
def is_valid_name (name : Text) : Bool :=
  !(name = []) && !(pyStrip name = []) && !(generic_terms.contains name)

/-- Matcher for the pattern `\b\d{4}-\d{2}-\d{2}\b` at index `i`; returns
the end index of the match. -/
def matchISOAt (t : Text) (i : Nat) : Option Nat :=
  if noWordBefore t i
      && testAt isDigitC t i && testAt isDigitC t (i+1)
      && testAt isDigitC t (i+2) && testAt isDigitC t (i+3)
      && isCh t (i+4) '-'
      && testAt isDigitC t (i+5) && testAt isDigitC t (i+6)
      && isCh t (i+7) '-'
      && testAt isDigitC t (i+8) && testAt isDigitC t (i+9)
      && noWordAt t (i+10)
  then some (i+10) else none

/-- Greedy `\d{1,2}` followed by the literal character `c`, starting at
index `i`; returns the index just after `c`.  (The regex engine prefers the
two-digit alternative; backtracking to one digit succeeds exactly when the
character after the first digit is `c`.) -/
def digits12Then (t : Text) (i : Nat) (c : Char) : Option Nat :=
  if testAt isDigitC t i && testAt isDigitC t (i+1) && isCh t (i+2) c then some (i+3)
  else if testAt isDigitC t i && isCh t (i+1) c then some (i+2)
  else none

/-- Matcher for `\b\d{1,2}/\d{1,2}/\d{2,4}\b` at index `i`.  For the final
`\d{2,4}\b`: the greedy engine takes at most four digits of the digit run;
every backtracking position is followed by a digit (a word character), so
the match succeeds exactly when the whole run has length 2 to 4 and is
followed by a non-word character. -/
def matchSlashAt (t : Text) (i : Nat) : Option Nat :=
  if noWordBefore t i then
    match digits12Then t i '/' with
    | none => none
    | some j =>
      match digits12Then t j '/' with
      | none => none
      | some k =>
        let r := runLen isDigitC t k
        if 2 ≤ r && r ≤ 4 && noWordAt t (k + r) then some (k + r) else none
  else none

/-- Matcher for `\b\d{1,2} [A-Za-z]+ \d{4}\b` at index `i`.  `[A-Za-z]+`
followed by a literal space needs no backtracking: shrinking the run leaves
a letter where the space is required. -/
def matchLongAt (t : Text) (i : Nat) : Option Nat :=
  if noWordBefore t i then
    match digits12Then t i ' ' with
    | none => none
    | some j =>
      let r := runLen isAlphaC t j
      if 1 ≤ r && isCh t (j + r) ' ' then
        let k := j + r + 1
        if testAt isDigitC t k && testAt isDigitC t (k+1)
            && testAt isDigitC t (k+2) && testAt isDigitC t (k+3)
            && noWordAt t (k+4)
        then some (k+4) else none
      else none
  else none

/-- Non-overlapping scan of `re.finditer`: try the matcher at each index in
turn; on a match, emit its payload and continue from the match end.  `fuel`
bounds the recursion (every step advances the index by at least one). -/
def scanAll {β : Type} (m : Text → Nat → Option (β × Nat)) (t : Text) :
    Nat → Nat → List β
  | 0, _ => []
  | fuel + 1, i =>
    if i ≤ t.length then
      match m t i with
      | some (b, e) => b :: scanAll m t fuel (max e (i + 1))
      | none => scanAll m t fuel (i + 1)
    else []

/-- All spans `(start, end)` of matches of the span matcher `m` in `t`, in
scan order (the `re.finditer` result list). -/
def finditer (m : Text → Nat → Option Nat) (t : Text) : List (Nat × Nat) :=
  scanAll (fun t i => (m t i).map (fun e => ((i, e), e))) t (t.length + 1) 0

/-- The three date patterns of src/app.py lines 98-102, in source order. -/
def date_patterns : List (Text → Nat → Option Nat) :=
  [matchISOAt, matchSlashAt, matchLongAt]

/-- Value of a digit string. -/
def digitsToNat (s : Text) : Nat :=
  s.foldl (fun acc c => acc * 10 + (c.toNat - '0'.toNat)) 0

/-- A `%d` or `%m` field of `strptime`: one or two digits.  (The value
range encoded in the CPython field regex is checked by `validYMD`; on whole
strings the two factorings accept the same inputs.) -/
def field12 (s : Text) : Option Nat :=
  if (s.length = 1 || s.length = 2) && s.all isDigitC then some (digitsToNat s) else none

/-- A `%Y` field of `strptime`: exactly four digits. -/
def field4 (s : Text) : Option Nat :=
  if s.length = 4 && s.all isDigitC then some (digitsToNat s) else none

/-- Gregorian leap year, as `calendar`/`datetime` define it. -/
def isLeap (y : Nat) : Bool :=
  y % 4 = 0 && (y % 100 ≠ 0 || y % 400 = 0)

/-- Days in month `m` of year `y`. -/
def daysInMonth (y m : Nat) : Nat :=
  if m = 2 then (if isLeap y then 29 else 28)
  else if m = 4 || m = 6 || m = 9 || m = 11 then 30
  else 31

/-- The ranges `datetime.strptime` accepts for a parsed date: the field
regexes bound day and month, and the `datetime` constructor requires
`MINYEAR ≤ year ≤ MAXYEAR` and a day valid for the month. -/
def validYMD (y m d : Nat) : Bool :=
  1 ≤ y && y ≤ 9999 && 1 ≤ m && m ≤ 12 && 1 ≤ d && d ≤ daysInMonth y m

/-- Split a text at every occurrence of the character `c`. -/
def splitOnChar (c : Char) : Text → List Text
  | [] => [[]]
  | d :: rest =>
    if d = c then [] :: splitOnChar c rest
    else
      match splitOnChar c rest with
      | [] => [[d]]
      | f :: fs => (d :: f) :: fs

/-- Embedding of `datetime.strptime(s, "%Y-%m-%d")` (success and the parsed
triple `(year, month, day)`). -/
def strptimeISO (s : Text) : Option (Nat × Nat × Nat) :=
  match splitOnChar '-' s with
  | [ys, ms, ds] =>
    match field4 ys, field12 ms, field12 ds with
    | some y, some m, some d => if validYMD y m d then some (y, m, d) else none
    | _, _, _ => none
  | _ => none

/-- Embedding of `datetime.strptime(s, "%d/%m/%Y")`. -/
def strptimeSlash (s : Text) : Option (Nat × Nat × Nat) :=
  match splitOnChar '/' s with
  | [ds, ms, ys] =>
    match field12 ds, field12 ms, field4 ys with
    | some d, some m, some y => if validYMD y m d then some (y, m, d) else none
    | _, _, _ => none
  | _ => none

/-- Lower-cased full month names, as the `%B` field of `strptime` accepts
them (matching is case-insensitive). -/
def monthNames : List Text :=
  ["january".toList, "february".toList, "march".toList, "april".toList,
   "may".toList, "june".toList, "july".toList, "august".toList,
   "september".toList, "october".toList, "november".toList, "december".toList]

/-- Month number of a `%B` field. -/
def monthNum (s : Text) : Option Nat :=
  (monthNames.findIdx? (fun n => n = pyLower s)).map (· + 1)

/-- Maximal whitespace-separated tokens of a text (a literal space in a
`strptime` format matches `\s+`). -/
def wsTokensGo : Text → Text → List Text
  | [], cur => if cur = [] then [] else [cur.reverse]
  | c :: rest, cur =>
    if isSpaceC c then
      if cur = [] then wsTokensGo rest [] else cur.reverse :: wsTokensGo rest []
    else wsTokensGo rest (c :: cur)

/-- Whitespace tokenisation of a text. -/
def wsTokens (s : Text) : List Text :=
  wsTokensGo s []

/-- Embedding of `datetime.strptime(s, "%d %B %Y")`.  The format is
anchored: leading or trailing whitespace leaves unconverted data, so the
text must begin and end with a field character. -/
def strptimeLong (s : Text) : Option (Nat × Nat × Nat) :=
  match s with
  | [] => none
  | c :: _ =>
    if isSpaceC c then none
    else if (s.getLast?).any isSpaceC then none
    else
      match wsTokens s with
      | [ds, bs, ys] =>
        match field12 ds, monthNum bs, field4 ys with
        | some d, some m, some y => if validYMD y m d then some (y, m, d) else none
        | _, _, _ => none
      | _ => none

/-- The normalisation chain of src/app.py lines 107-116: try
`"%Y-%m-%d"`, then `"%d/%m/%Y"`, then `"%d %B %Y"`; the first successful
parse wins, and failure of all three yields `none` (the bare `except`
arms swallow every `ValueError`). -/
def normalize_date (s : Text) : Option (Nat × Nat × Nat) :=
  match strptimeISO s with
  | some d => some d
  | none =>
    match strptimeSlash s with
    | some d => some d
    | none => strptimeLong s

/-- Decimal digits of `n`, zero-padded on the left to width `w`. -/
def padNum (w n : Nat) : Text :=
  let s := Nat.toDigits 10 n
  List.replicate (w - s.length) '0' ++ s

/-- Embedding of `dt.strftime("%Y-%m-%d")`: the canonical ISO rendering of
the parsed date. -/
def strftimeISO (ymd : Nat × Nat × Nat) : Text :=
  padNum 4 ymd.1 ++ '-' :: (padNum 2 ymd.2.1 ++ '-' :: padNum 2 ymd.2.2)

/-- All date-pattern match spans of the document text, pattern by pattern
in source order (the union of the three `re.finditer` passes). -/
def dateMatches (t : Text) : List (Nat × Nat) :=
  (date_patterns.map (fun m => finditer m t)).flatten

/-- The successfully normalised date candidates, as the tuples
`(iso, match.start(), match.end())` the source adds to `found_dates`, in
scan order and before deduplication. -/
def dateCandidates (t : Text) : List (Text × Nat × Nat) :=
  (dateMatches t).filterMap
    (fun se => (normalize_date (sliceT t se.1 se.2)).map
      (fun ymd => (strftimeISO ymd, se.1, se.2)))

/-- The Python set `found_dates`: candidates up to duplication of the whole
tuple `(iso, start, end)`. -/
def found_dates (t : Text) : List (Text × Nat × Nat) :=
  (dateCandidates t).dedup

/-- The sort key of `sorted(found_dates)`: Python tuple comparison, i.e.
lexicographic on (ISO string, start offset, end offset), with the ISO
string itself compared lexicographically. -/
def dateKey (x : Text × Nat × Nat) : Lex (Text × Lex (Nat × Nat)) :=
  toLex (x.1, toLex (x.2.1, x.2.2))

/-- The order `sorted` uses on `found_dates` entries. -/
def dateKeyLE (x y : Text × Nat × Nat) : Prop :=
  dateKey x ≤ dateKey y

instance : DecidableRel dateKeyLE :=
  fun x y => inferInstanceAs (Decidable (dateKey x ≤ dateKey y))

instance : IsTotal (Text × Nat × Nat) dateKeyLE :=
  ⟨fun x y => le_total (dateKey x) (dateKey y)⟩

instance : IsTrans (Text × Nat × Nat) dateKeyLE :=
  ⟨fun _ _ _ h h' => le_trans h h'⟩

/-- Embedding of `sorted(found_dates)` (src/app.py line 120): the
deduplicated tuples in ascending tuple order.  (`sorted` is a stable sort;
on the duplicate-free `found_dates` any sort agrees with it, and insertion
sort is used here.) -/
def sorted_found_dates (t : Text) : List (Text × Nat × Nat) :=
  List.insertionSort dateKeyLE (found_dates t)

/-- The tail `\s*([\w\-\/]+)` of the letter pattern starting at index `k`:
greedy whitespace, then a non-empty greedy identifier group.  Returns the
group span. -/
def letterTail (t : Text) (k : Nat) : Option (Nat × Nat) :=
  let w := runLen isSpaceC t k
  let g := k + w
  let r := runLen (fun c => isWordC c || c = '-' || c = '/') t g
  if 1 ≤ r then some (g, g + r) else none

/-- Matcher for `Letter\s+(?:No\.|Number)?\s*([\w\-\/]+)` (IGNORECASE) at
index `i`.  Returns `(group start, group end, match end)`; the group is the
last pattern element, so the match ends with it.  The optional group tries
`No.` first, then `Number`, then matches empty; a later alternative is
tried when an earlier one (or the rest of the pattern after it) fails. -/
def matchLetterAt (t : Text) (i : Nat) : Option (Nat × Nat × Nat) :=
  if litAtCI "letter".toList t i then
    let w := runLen isSpaceC t (i + 6)
    if 1 ≤ w then
      let j := i + 6 + w
      match (if litAtCI "no.".toList t j then letterTail t (j + 3) else none) with
      | some (gs, ge) => some (gs, ge, ge)
      | none =>
        match (if litAtCI "number".toList t j then letterTail t (j + 6) else none) with
        | some (gs, ge) => some (gs, ge, ge)
        | none =>
          match letterTail t j with
          | some (gs, ge) => some (gs, ge, ge)
          | none => none
    else none
  else none

/-- Embedding of `re.findall(r"Letter\s+(?:No\.|Number)?\s*([\w\-\/]+)",
all_text, re.IGNORECASE)` (src/app.py line 142): the captured identifier of
every match, in match order. -/
def findall_letters (t : Text) : List Text :=
  scanAll
    (fun t i => (matchLetterAt t i).map (fun x => (sliceT t x.1 x.2.1, x.2.2)))
    t (t.length + 1) 0

/-- Matcher for the case-sensitive pattern `(Clause|Article|Act)\s+\d+(\.\d+)?`
at index `i`.  Returns `((group 1, group 2), match end)` where group 2 is
the captured decimal sub-clause including its dot, or empty when the
optional group did not participate — exactly the tuple `re.findall` yields
for this two-group pattern.  The alternatives share no viable prefixes at
the same index (after `Article` matches, `Act` needs `c` where `r` stands),
so the first literal alternative that matches is the group-1 capture. -/
def matchClauseAt (t : Text) (i : Nat) : Option ((Text × Text) × Nat) :=
  let kindOpt : Option (Text × Nat) :=
    if litAt "Clause".toList t i then some ("Clause".toList, i + 6)
    else if litAt "Article".toList t i then some ("Article".toList, i + 7)
    else if litAt "Act".toList t i then some ("Act".toList, i + 3)
    else none
  match kindOpt with
  | none => none
  | some (kind, j) =>
    let w := runLen isSpaceC t j
    if 1 ≤ w then
      let k := j + w
      let r := runLen isDigitC t k
      if 1 ≤ r then
        let e := k + r
        let r2 := runLen isDigitC t (e + 1)
        if isCh t e '.' && 1 ≤ r2 then
          some ((kind, '.' :: sliceT t (e + 1) (e + 1 + r2)), e + 1 + r2)
        else some ((kind, []), e)
      else none
    else none

/-- Embedding of `re.findall(pattern, all_text)` for the clause pattern
(src/app.py line 152): the `(kind, sub-clause)` group tuples in match
order. -/
def findall_clauses (t : Text) : List (Text × Text) :=
  scanAll matchClauseAt t (t.length + 1) 0

/-- One entity span of the external spaCy tagger: surface text and label.
The tagger is an external collaborator; its output is a parameter of the
extraction. -/
structure Ent where
  text : Text
  label : Text
deriving DecidableEq, Repr

/-- A `{"name": ..., "page_number": ...}` person record. -/
structure PersonReference where
  name : Text
  page_number : Int
deriving DecidableEq, Repr

/-- A `{"name": ..., "page_number": ...}` letter record. -/
structure LetterReference where
  name : Text
  page_number : Int
deriving DecidableEq, Repr

/-- A `{"reference": ..., "type": ..., "page_number": ...}` clause record. -/
structure ClauseReference where
  reference : Text
  type : Text
  page_number : Int
deriving DecidableEq, Repr

/-- A `{"date": ..., "surrounding_context": ...}` date record. -/
structure DateReference where
  date : Text
  surrounding_context : Text
deriving DecidableEq, Repr

/-- The `references` sub-dict of the metadata record. -/
structure References where
  letters_mentioned : List LetterReference
  laws_clauses_articles_acts : List ClauseReference
  persons : List PersonReference
deriving DecidableEq, Repr

/-- The `metadata` dict assembled by `extract_legal_metadata` (the Python
function returns it wrapped as `{"metadata": metadata}`). -/
structure Metadata where
  document_name : Text
  document_date : Text
  dates : List DateReference
  references : References
deriving DecidableEq, Repr

/-- The person loop of src/app.py lines 130-139: keep `PERSON` spans whose
text passes `is_valid_name`, strip them, skip names already in the
`seen_persons` set, and append `{name, find_page(name)}` records. -/
def extract_persons (pd : ParsedDocument) : List Ent → List Text → List PersonReference
  | [], _ => []
  | ent :: rest, seen =>
    if (ent.label == "PERSON".toList) && is_valid_name ent.text then
      let name := pyStrip ent.text
      if seen.contains name then extract_persons pd rest seen
      else ⟨name, find_page name pd⟩ :: extract_persons pd rest (name :: seen)
    else extract_persons pd rest seen

/-- The letter loop of src/app.py lines 142-147: append a
`{name, find_page(name)}` record for every captured identifier passing
`is_valid_name`; no deduplication. -/
def extract_letters (pd : ParsedDocument) : List Text → List LetterReference
  | [] => []
  | m :: rest =>
    if is_valid_name m then ⟨m, find_page m pd⟩ :: extract_letters pd rest
    else extract_letters pd rest

/-- The clause loop of src/app.py lines 150-160: render
`f"{ref[0]} {ref[1] if ref[1] else ''}".strip()`, skip rendered strings
already in the `seen_clauses` set, and append
`{reference, type = kind.lower(), find_page(reference)}` records. -/
def extract_clauses (pd : ParsedDocument) : List (Text × Text) → List Text → List ClauseReference
  | [], _ => []
  | (kind, sub) :: rest, seen =>
    let full_ref := pyStrip (kind ++ ' ' :: (if sub = [] then [] else sub))
    if seen.contains full_ref then extract_clauses pd rest seen
    else
      ⟨full_ref, pyLower kind, find_page full_ref pd⟩ ::
        extract_clauses pd rest (full_ref :: seen)

/-- The whole-document text of src/app.py line 94:
`" ".join(el.get("text", "") for el in parsed_doc["content"])`. -/
def all_text_of (parsed_doc : ParsedDocument) : Text :=
  joinSep " ".toList (parsed_doc.content.map (fun el => el.text.getD []))

/-- The `dates` list of src/app.py lines 120-124: one record per sorted
tuple, with the context window `all_text[max(start-50, 0) : end+50]`. -/
def datesList (t : Text) : List DateReference :=
  (sorted_found_dates t).map (fun x => ⟨x.1, sliceT t (x.2.1 - 50) (x.2.2 + 50)⟩)

/-- Embedding of `extract_legal_metadata(parsed_doc, pdf_filename)`
(src/app.py lines 82-162).  The spaCy pipeline `nlp` is an external
collaborator, passed as the `tagger` parameter mapping the document text to
its entity spans. -/
def extract_legal_metadata (tagger : Text → List Ent) (parsed_doc : ParsedDocument)
    (pdf_filename : Text) : Metadata :=
  let all_text := all_text_of parsed_doc
  let ents := tagger all_text
  let dates := datesList all_text
  { document_name := pdf_filename
    document_date :=
      match dates with
      | [] => "not found".toList
      | d :: _ => d.date
    dates := dates
    references :=
      { letters_mentioned := extract_letters parsed_doc (findall_letters all_text)
        laws_clauses_articles_acts := extract_clauses parsed_doc (findall_clauses all_text) []
        persons := extract_persons parsed_doc ents [] } }

/-- Character class `[\s\-:]` of the caption pattern. -/
def capClassS (c : Char) : Bool :=
  isSpaceC c || c = '-' || c = ':'

/-- Character class `[:\.\-]` of the caption pattern. -/
def capClassP (c : Char) : Bool :=
  c = ':' || c = '.' || c = '-'

/-- NFA step for the middle `[\s\-:]*(\d+)?[:\.\-]?\s*` of the caption
pattern: the four booleans record whether the consumed prefix can end
inside the star, the digit group, after the optional punctuation, or
inside the trailing whitespace star. -/
def capStep : Bool × Bool × Bool × Bool → Char → Bool × Bool × Bool × Bool
  | (s, d, p, w), c =>
    (s && capClassS c,
     (s || d) && c.isDigit,
     (s || d) && capClassP c,
     (s || d || p || w) && isSpaceC c)

/-- Length of the longest prefix of `cs` accepted by
`[\s\-:]*(\d+)?[:\.\-]?\s*` (the language is prefix-closed, so the
acceptable lengths form an initial segment). -/
def capLimFrom : Text → Bool × Bool × Bool × Bool → Nat
  | [], _ => 0
  | c :: rest, st =>
    let st' := capStep st c
    if st'.1 || st'.2.1 || st'.2.2.1 || st'.2.2.2 then 1 + capLimFrom rest st'
    else 0

/-- The largest index `k` in `[j, j + d]` whose character exists and is not
a newline, if any: where the final `.+` of the caption pattern can start
after backtracking (the regex engine prefers the latest such start, and
every earlier viable start is also in the prefix language). -/
def lastGoodFrom (t : Text) (j : Nat) : Nat → Option Nat
  | 0 => if (t[j]?).any (fun c => c ≠ '\n') then some j else none
  | d + 1 =>
    if (t[j + d + 1]?).any (fun c => c ≠ '\n') then some (j + d + 1)
    else lastGoodFrom t j d

/-- Matcher for `(Figure|Fig)[\s\-:]*(\d+)?[:\.\-]?\s*(.+)` (IGNORECASE) at
index `i`; returns the end of the whole match.  `.+` runs greedily to the
end of the line it starts on; the `Figure` alternative is preferred, and
when the rest of the pattern fails after it the engine falls back to
`Fig`. -/
def matchCaptionAt (t : Text) (i : Nat) : Option Nat :=
  let rest : Nat → Option Nat := fun j =>
    match lastGoodFrom t j (capLimFrom (t.drop j) (true, false, false, false)) with
    | some k => some (k + runLen (fun c => c ≠ '\n') t k)
    | none => none
  if litAtCI "figure".toList t i then
    match rest (i + 6) with
    | some e => some e
    | none => rest (i + 3)
  else if litAtCI "fig".toList t i then rest (i + 3)
  else none

/-- Scan of `re.search`: the span of the first match of `m` in `t`. -/
def searchFirst (m : Text → Nat → Option Nat) (t : Text) : Nat → Nat → Option (Nat × Nat)
  | 0, _ => none
  | fuel + 1, i =>
    if i ≤ t.length then
      match m t i with
      | some e => some (i, e)
      | none => searchFirst m t fuel (i + 1)
    else none

/-- Embedding of `extract_caption_from_page_text(text)` (src/app.py lines
22-26).  `text` is `page.extract_text()`, which may be `None`; `if not
text` also catches the empty string.  On a match, `match.group(0)` is
returned. -/
def extract_caption_from_page_text (text : Option Text) : Text :=
  match text with
  | none => []
  | some t =>
    if t = [] then []
    else
      match searchFirst matchCaptionAt t (t.length + 1) 0 with
      | some (s, e) => sliceT t s e
      | none => []

/-- One decomposed word of the external page parser (`page.extract_words()`):
its text and bounding box.  Coordinates are modelled as integers; their
values never influence the extraction logic. -/
structure Word where
  text : Text
  x0 : Int
  top : Int
  x1 : Int
  bottom : Int
deriving DecidableEq, Repr

/-- One decomposed page of the external page parser: words, tables (grids
of cell strings) and the raw page text (`None` when absent). -/
structure Page where
  words : List Word
  tables : List (List (List Text))
  rawText : Option Text
deriving DecidableEq, Repr

/-- Decimal rendering of an integer, as Python `f"{n}"`. -/
def intStr (n : Int) : Text :=
  (toString n).toList

/-- Embedding of `extract_elements_from_page(page, page_number)`
(src/app.py lines 39-72): one `paragraph` element per non-empty stripped
word, one `table` element per table (pipe/newline plain text and an HTML
rendering), then exactly one `figure` element carrying the placeholder
image filename and the caption — and no `"text"` key. -/
def extract_elements_from_page (page : Page) (page_number : Int) : List ContentElement :=
  let wordEls := page.words.filterMap (fun block =>
    let text := pyStrip block.text
    if text = [] then none
    else some
      { type := "paragraph".toList
        text := some text
        html := none
        image_filename := none
        caption := none
        page_number := page_number
        metadata := some [block.x0, block.top, block.x1, block.bottom] })
  let tableEls := page.tables.map (fun table =>
    { type := "table".toList
      text := some (joinSep "\n".toList (table.map (fun row => joinSep " | ".toList row)))
      html := some ("<table>".toList ++
        (table.map (fun row => "<tr>".toList ++
          (row.map (fun cell => "<td>".toList ++ cell ++ "</td>".toList)).flatten ++
          "</tr>".toList)).flatten ++ "</table>".toList)
      image_filename := none
      caption := none
      page_number := page_number
      metadata := none })
  let figureEl : ContentElement :=
    { type := "figure".toList
      text := none
      html := none
      image_filename := some ("page_".toList ++ intStr page_number ++ ".png".toList)
      caption := some (extract_caption_from_page_text page.rawText)
      page_number := page_number
      metadata := none }
  wordEls ++ tableEls ++ [figureEl]

/-- The page loop of `parse_document` starting at zero-based index
`start`: `for i, page in enumerate(pdf.pages)` with page number `i + 1`. -/
def parse_document_go (start : Nat) : List Page → List ContentElement
  | [] => []
  | p :: rest =>
    extract_elements_from_page p ((start : Int) + 1) ++ parse_document_go (start + 1) rest

/-- Embedding of `parse_document(file_path)` (src/app.py lines 74-80).
The `pdfplumber` collaborator is modelled by the list of decomposed pages
it yields for the file. -/
def parse_document (pages : List Page) : ParsedDocument :=
  ⟨parse_document_go 0 pages⟩

/-!
State-threaded embedding of `extract_legal_metadata`.  The Python
`parsed_doc` dict is mutable; the function is embedded once more over a
`StateM ParsedDocument` store in which every access the body performs on
`parsed_doc` is an explicit operation, so that the claim that the call
leaves the document unchanged is about the final store. -/

/-- Read access `parsed_doc["content"]` / `el.get(...)` performed by the
`all_text` join (src/app.py line 94). -/
def all_text_st : StateM ParsedDocument Text := do
  let pd ← get
  pure (all_text_of pd)

/-- Read access performed by one `find_page(...)` call. -/
def find_page_st (s : Text) : StateM ParsedDocument Int := do
  let pd ← get
  pure (find_page s pd)

/-- The person loop over the store. -/
def extract_persons_st : List Ent → List Text → StateM ParsedDocument (List PersonReference)
  | [], _ => pure []
  | ent :: rest, seen => do
    if (ent.label == "PERSON".toList) && is_valid_name ent.text then
      let name := pyStrip ent.text
      if seen.contains name then extract_persons_st rest seen
      else do
        let page ← find_page_st name
        let tl ← extract_persons_st rest (name :: seen)
        pure (⟨name, page⟩ :: tl)
    else extract_persons_st rest seen

/-- The letter loop over the store. -/
def extract_letters_st : List Text → StateM ParsedDocument (List LetterReference)
  | [] => pure []
  | m :: rest => do
    if is_valid_name m then
      let page ← find_page_st m
      let tl ← extract_letters_st rest
      pure (⟨m, page⟩ :: tl)
    else extract_letters_st rest

/-- The clause loop over the store. -/
def extract_clauses_st : List (Text × Text) → List Text → StateM ParsedDocument (List ClauseReference)
  | [], _ => pure []
  | (kind, sub) :: rest, seen => do
    let full_ref := pyStrip (kind ++ ' ' :: (if sub = [] then [] else sub))
    if seen.contains full_ref then extract_clauses_st rest seen
    else do
      let page ← find_page_st full_ref
      let tl ← extract_clauses_st rest (full_ref :: seen)
      pure (⟨full_ref, pyLower kind, page⟩ :: tl)

/-- The body of `extract_legal_metadata` as a computation over the
document store: the statement sequence of src/app.py lines 82-162, with
every touch of `parsed_doc` an explicit store operation. -/
def extract_legal_metadata_st (tagger : Text → List Ent) (pdf_filename : Text) :
    StateM ParsedDocument Metadata := do
  let all_text ← all_text_st
  let ents := tagger all_text
  let dates := datesList all_text
  let persons ← extract_persons_st ents []
  let letters ← extract_letters_st (findall_letters all_text)
  let clauses ← extract_clauses_st (findall_clauses all_text) []
  pure
    { document_name := pdf_filename
      document_date :=
        match dates with
        | [] => "not found".toList
        | d :: _ => d.date
      dates := dates
      references :=
        { letters_mentioned := letters
          laws_clauses_articles_acts := clauses
          persons := persons } }

/-! Theorems. -/

/-- C4: for every text fragment and every ParsedDocument, the Page
Resolver returns the `page_number` of the first content element in
assembled order whose text field contains the fragment as an exact,
case-sensitive substring, and returns `-1` if no element's text contains
it. -/
theorem C4_find_page_first_match (s : Text) (c : List ContentElement) :
    (find_page s ⟨c⟩ = -1 ∧ ∀ el ∈ c, isSubstr s (el.text.getD []) = false) ∨
    (∃ pre el post, c = pre ++ el :: post ∧ isSubstr s (el.text.getD []) = true ∧
      (∀ e ∈ pre, isSubstr s (e.text.getD []) = false) ∧
      find_page s ⟨c⟩ = el.page_number) := by
  induction c with
  | nil => exact Or.inl ⟨rfl, by simp⟩
  | cons el rest ih =>
    by_cases h : isSubstr s (el.text.getD []) = true
    · refine Or.inr ⟨[], el, rest, rfl, h, by simp, ?_⟩
      simp [find_page, find_page_go, h]
    · have h' : isSubstr s (el.text.getD []) = false := by
        simpa using h
      have hstep : find_page s ⟨el :: rest⟩ = find_page s ⟨rest⟩ := by
        simp [find_page, find_page_go, h']
      rcases ih with ⟨h1, h2⟩ | ⟨pre, el', post, hsplit, hel', hpre, hpage⟩
      · refine Or.inl ⟨hstep.trans h1, ?_⟩
        intro e he
        rcases List.mem_cons.mp he with rfl | he'
        · exact h'
        · exact h2 e he'
      · refine Or.inr ⟨el :: pre, el', post, by simp [hsplit], hel', ?_, hstep.trans hpage⟩
        intro e he
        rcases List.mem_cons.mp he with rfl | he'
        · exact h'
        · exact hpre e he'

/-- Paragraph fixture used by concrete instantiations. -/
def paraEl (s : Text) (n : Int) : ContentElement :=
  { type := "paragraph".toList, text := some s, html := none, image_filename := none,
    caption := none, page_number := n, metadata := none }

/-- Entity-tagger stub returning no spans. -/
def stubTagger : Text → List Ent := fun _ => []

/-- C3: successfully parsed date matches are deduplicated by the key
(canonical ISO date, match start offset, match end offset), and the output
sequence is sorted ascending by that same key; in particular the same
calendar date matched at two offsets yields two entries, and a
chronologically earlier date sorts first regardless of textual position. -/
theorem C3_dates_dedup_sorted :
    (∀ t : Text,
      List.Sorted dateKeyLE (sorted_found_dates t) ∧
      (sorted_found_dates t).Nodup ∧
      (∀ x, x ∈ sorted_found_dates t ↔ x ∈ dateCandidates t)) ∧
    sorted_found_dates ("2024-01-01 and 2024-01-01".toList) =
      [("2024-01-01".toList, 0, 10), ("2024-01-01".toList, 15, 25)] ∧
    sorted_found_dates ("15 March 2023 and 2022-01-01".toList) =
      [("2022-01-01".toList, 18, 28), ("2023-03-15".toList, 0, 13)] := by
  refine ⟨fun t => ⟨List.sorted_insertionSort _ _, ?_, fun x => ?_⟩, by decide, by decide⟩
  · exact ((List.perm_insertionSort dateKeyLE (found_dates t)).nodup_iff).mpr
      (List.nodup_dedup _)
  · rw [sorted_found_dates, (List.perm_insertionSort dateKeyLE (found_dates t)).mem_iff,
      found_dates, List.mem_dedup]

/-- C2: the metadata record's `document_date` is the date of the first
entry of the sorted, deduplicated dates sequence — the entry with the
least (ISO date, start, end) key — when that sequence is non-empty, and
the sentinel `"not found"` otherwise. -/
theorem C2_document_date (tagger : Text → List Ent) (pd : ParsedDocument) (name : Text) :
    (sorted_found_dates (all_text_of pd) = [] →
      (extract_legal_metadata tagger pd name).document_date = "not found".toList) ∧
    (∀ x xs, sorted_found_dates (all_text_of pd) = x :: xs →
      (extract_legal_metadata tagger pd name).document_date = x.1 ∧
      ∀ y ∈ sorted_found_dates (all_text_of pd), dateKeyLE x y) := by
  constructor
  · intro h
    simp [extract_legal_metadata, datesList, h]
  · intro x xs h
    refine ⟨by simp [extract_legal_metadata, datesList, h], ?_⟩
    intro y hy
    have hs : List.Sorted dateKeyLE (sorted_found_dates (all_text_of pd)) :=
      List.sorted_insertionSort _ _
    rw [h] at hs hy
    rcases List.mem_cons.mp hy with rfl | hy'
    · exact le_refl (dateKey y)
    · exact (List.sorted_cons.mp hs).1 y hy'

/-- Witness for C2, at a document with no date and at a document whose
text is exactly `2024-01-01`. -/
theorem C2_document_date_witness :
    (extract_legal_metadata stubTagger ⟨[]⟩ [] ).document_date = "not found".toList ∧
    (extract_legal_metadata stubTagger ⟨[paraEl "2024-01-01".toList 1]⟩
      "x.pdf".toList).document_date = "2024-01-01".toList :=
  ⟨(C2_document_date stubTagger ⟨[]⟩ []).1 (by decide),
   ((C2_document_date stubTagger ⟨[paraEl "2024-01-01".toList 1]⟩ "x.pdf".toList).2
      ("2024-01-01".toList, 0, 10) [] (by decide)).1⟩

/-- C8: normalization tries the three formats in the fixed order ISO,
slash, long-month-name; the first success wins; and a match whose slice
fails all three attempts contributes nothing to the dates sequence — it is
silently dropped rather than raising a failure. -/
theorem C8_date_parse_chain (s t : Text) (st en : Nat) :
    (∀ d, strptimeISO s = some d → normalize_date s = some d) ∧
    (strptimeISO s = none → ∀ d, strptimeSlash s = some d → normalize_date s = some d) ∧
    (strptimeISO s = none → strptimeSlash s = none → normalize_date s = strptimeLong s) ∧
    (normalize_date (sliceT t st en) = none →
      ∀ iso, (iso, st, en) ∉ sorted_found_dates t) := by
  refine ⟨fun d h => by simp [normalize_date, h],
    fun h1 d h2 => by simp [normalize_date, h1, h2],
    fun h1 h2 => by simp [normalize_date, h1, h2],
    fun h iso hmem => ?_⟩
  have hc : (iso, st, en) ∈ dateCandidates t := by
    rw [sorted_found_dates] at hmem
    rw [(List.perm_insertionSort dateKeyLE (found_dates t)).mem_iff, found_dates,
      List.mem_dedup] at hmem
    exact hmem
  rcases List.mem_filterMap.mp hc with ⟨se, _, hmap⟩
  rcases Option.map_eq_some'.mp hmap with ⟨ymd, hnd, heq⟩
  obtain ⟨a, b⟩ := se
  simp only [Prod.mk.injEq] at heq
  obtain ⟨-, h2, h3⟩ := heq
  rw [h2, h3, h] at hnd
  exact Option.noConfusion hnd

/-- Witness for C8: the chain succeeds on an ISO string, succeeds on a
slash string after the ISO attempt fails, and a candidate failing all
three attempts is absent from the extracted dates. -/
theorem C8_date_parse_chain_witness :
    normalize_date ("2024-01-01".toList) = some (2024, 1, 1) ∧
    normalize_date ("1/2/2024".toList) = some (2024, 2, 1) ∧
    ("9999-99-99".toList, 0, 10) ∉ sorted_found_dates ("99/99/9999".toList) :=
  ⟨(C8_date_parse_chain "2024-01-01".toList [] 0 0).1 (2024, 1, 1) (by decide),
   (C8_date_parse_chain "1/2/2024".toList [] 0 0).2.1 (by decide) (2024, 2, 1) (by decide),
   (C8_date_parse_chain [] "99/99/9999".toList 0 10).2.2.2 (by decide) "9999-99-99".toList⟩

/-- Names of the letter references, in order: one entry per captured
identifier passing the stop-list check, duplicates preserved. -/
theorem extract_letters_names (pd : ParsedDocument) (ms : List Text) :
    (extract_letters pd ms).map (fun r => r.name) = ms.filter is_valid_name := by
  induction ms with
  | nil => rfl
  | cons m rest ih =>
    by_cases h : is_valid_name m
    · simp [extract_letters, List.filter_cons, h, ih]
    · simp only [Bool.not_eq_true] at h
      simp [extract_letters, List.filter_cons, h, ih]

/-- C7: the Letter Citation Extractor performs no deduplication — every
captured identifier passing the stop-list check is appended in match
order, so the same identifier at two text positions yields two entries. -/
theorem C7_letters_no_dedup :
    (∀ (tagger : Text → List Ent) (pd : ParsedDocument) (name : Text),
      ((extract_legal_metadata tagger pd name).references.letters_mentioned).map
          (fun r => r.name) =
        (findall_letters (all_text_of pd)).filter is_valid_name) ∧
    findall_letters ("Letter No. ABC-1 and Letter No. ABC-1".toList) =
      ["ABC-1".toList, "ABC-1".toList] ∧
    (∀ pd : ParsedDocument,
      (extract_letters pd
        (findall_letters ("Letter No. ABC-1 and Letter No. ABC-1".toList))).length = 2) := by
  refine ⟨fun tagger pd name => extract_letters_names pd _, by decide, fun pd => ?_⟩
  have h := congrArg List.length
    (extract_letters_names pd (findall_letters ("Letter No. ABC-1 and Letter No. ABC-1".toList)))
  rw [List.length_map] at h
  rw [h]
  decide

/-- The acceptance test the person loop applies to a tagged span: label
`PERSON` and a text passing `is_valid_name`. -/
def acceptedEnt (e : Ent) : Bool :=
  (e.label == "PERSON".toList) && is_valid_name e.text

/-- First-occurrence deduplication excluding an initial seen set. -/
def dedupFirstExcl (seen : List Text) : List Text → List Text
  | [] => []
  | x :: xs =>
    if seen.contains x then dedupFirstExcl seen xs
    else x :: dedupFirstExcl (x :: seen) xs

/-- First-occurrence deduplication. -/
def dedupFirst (l : List Text) : List Text :=
  dedupFirstExcl [] l

/-- Spans failing the acceptance test contribute nothing to the person
list. -/
theorem extract_persons_filter (pd : ParsedDocument) (ents : List Ent) (seen : List Text) :
    extract_persons pd ents seen = extract_persons pd (ents.filter acceptedEnt) seen := by
  induction ents generalizing seen with
  | nil => rfl
  | cons e rest ih =>
    simp only [List.filter_cons]
    by_cases hl : e.label = ['P', 'E', 'R', 'S', 'O', 'N']
    · by_cases hv : is_valid_name e.text = true
      · have ha : acceptedEnt e = true := by simp [acceptedEnt, hl, hv]
        simp only [ha, if_pos rfl]
        by_cases hs : pyStrip e.text ∈ seen
        · simp [extract_persons, hl, hv, hs, ih]
        · simp [extract_persons, hl, hv, hs, ih]
      · have ha : acceptedEnt e = false := by simp [acceptedEnt, hv]
        simp only [ha, Bool.false_eq_true, if_false]
        simp [extract_persons, hv, ih]
    · have ha : acceptedEnt e = false := by simp [acceptedEnt, hl]
      simp only [ha, Bool.false_eq_true, if_false]
      simp [extract_persons, hl, ih]

/-- The person names, with the seen set generalised: the accepted spans'
stripped texts, first occurrence kept, occurrences already seen skipped. -/
theorem extract_persons_names (pd : ParsedDocument) (ents : List Ent) (seen : List Text) :
    (extract_persons pd ents seen).map (fun r => r.name) =
      dedupFirstExcl seen ((ents.filter acceptedEnt).map (fun e => pyStrip e.text)) := by
  induction ents generalizing seen with
  | nil => rfl
  | cons e rest ih =>
    simp only [List.filter_cons]
    by_cases hl : e.label = ['P', 'E', 'R', 'S', 'O', 'N']
    · by_cases hv : is_valid_name e.text = true
      · have ha : acceptedEnt e = true := by simp [acceptedEnt, hl, hv]
        simp only [ha, if_pos rfl, List.map_cons]
        by_cases hs : pyStrip e.text ∈ seen
        · simp [extract_persons, dedupFirstExcl, hl, hv, hs, ih]
        · simp [extract_persons, dedupFirstExcl, hl, hv, hs, ih]
      · have ha : acceptedEnt e = false := by simp [acceptedEnt, hv]
        simp only [ha, Bool.false_eq_true, if_false]
        simp [extract_persons, hv, ih]
    · have ha : acceptedEnt e = false := by simp [acceptedEnt, hl]
      simp only [ha, Bool.false_eq_true, if_false]
      simp [extract_persons, hl, ih]

/-- `dedupFirstExcl` yields a duplicate-free list avoiding the seen set. -/
theorem dedupFirstExcl_nodup (l : List Text) (seen : List Text) :
    (dedupFirstExcl seen l).Nodup ∧ ∀ x ∈ dedupFirstExcl seen l, x ∉ seen := by
  induction l generalizing seen with
  | nil => exact ⟨List.nodup_nil, by simp [dedupFirstExcl]⟩
  | cons x xs ih =>
    by_cases hs : seen.contains x = true
    · simp only [dedupFirstExcl, hs, if_pos rfl]
      exact ih seen
    · have hs' : seen.contains x = false := by simpa using hs
      have hxseen : x ∉ seen := by simpa [List.contains] using hs'
      obtain ⟨hnd, hmem⟩ := ih (x :: seen)
      simp only [dedupFirstExcl, hs', Bool.false_eq_true, if_false]
      refine ⟨List.nodup_cons.mpr ⟨fun hx => ?_, hnd⟩, ?_⟩
      · exact (hmem x hx) (List.mem_cons_self x seen)
      · intro y hy
        rcases List.mem_cons.mp hy with rfl | hy'
        · exact hxseen
        · exact fun hyseen => (hmem y hy') (List.mem_cons_of_mem x hyseen)

/-- Spans whose text is a stop-list term or trims to nothing fail the
acceptance test. -/
theorem stopterm_not_accepted (e : Ent) :
    e.text ∈ generic_terms ∨ pyStrip e.text = [] → acceptedEnt e = false := by
  intro h
  rcases h with h | h
  · simp [acceptedEnt, is_valid_name, h]
  · simp [acceptedEnt, is_valid_name, h]

/-- C6: a PERSON span whose text is exactly a stop-list term, or empty
after trimming, is never added to the person list; surviving names are
deduplicated by their exact trimmed string, case-sensitively, keeping the
first occurrence in tagger order. -/
theorem C6_persons_stoplist_dedup :
    (∀ (pd : ParsedDocument) (ents : List Ent),
      extract_persons pd ents [] = extract_persons pd (ents.filter acceptedEnt) []) ∧
    (∀ e : Ent, e.text ∈ generic_terms ∨ pyStrip e.text = [] → acceptedEnt e = false) ∧
    (∀ (pd : ParsedDocument) (ents : List Ent),
      (extract_persons pd ents []).map (fun r => r.name) =
        dedupFirst ((ents.filter acceptedEnt).map (fun e => pyStrip e.text))) ∧
    (∀ (pd : ParsedDocument) (ents : List Ent),
      ((extract_persons pd ents []).map (fun r => r.name)).Nodup) ∧
    (∀ pd : ParsedDocument,
      extract_persons pd [⟨"Contractor".toList, "PERSON".toList⟩] [] = []) :=
  ⟨fun pd ents => extract_persons_filter pd ents [],
   stopterm_not_accepted,
   fun pd ents => extract_persons_names pd ents [],
   fun pd ents => by
     rw [extract_persons_names pd ents []]
     exact (dedupFirstExcl_nodup _ []).1,
   fun pd => by rfl⟩

/-- The person loop only reads the store. -/
theorem extract_persons_st_run (ents : List Ent) (seen : List Text) (pd : ParsedDocument) :
    (extract_persons_st ents seen).run pd = (extract_persons pd ents seen, pd) := by
  induction ents generalizing seen with
  | nil => simp [extract_persons_st, extract_persons]
  | cons e rest ih =>
    by_cases hl : e.label = ['P', 'E', 'R', 'S', 'O', 'N']
    · by_cases hv : is_valid_name e.text = true
      · by_cases hs : pyStrip e.text ∈ seen
        · simp [extract_persons_st, extract_persons, hl, hv, hs, ih]
        · simp [extract_persons_st, extract_persons, hl, hv, hs, ih, find_page_st]
      · simp [extract_persons_st, extract_persons, hv, ih]
    · simp [extract_persons_st, extract_persons, hl, ih]

/-- The letter loop only reads the store. -/
theorem extract_letters_st_run (ms : List Text) (pd : ParsedDocument) :
    (extract_letters_st ms).run pd = (extract_letters pd ms, pd) := by
  induction ms with
  | nil => simp [extract_letters_st, extract_letters]
  | cons m rest ih =>
    by_cases h : is_valid_name m = true
    · simp [extract_letters_st, extract_letters, h, ih, find_page_st]
    · simp [extract_letters_st, extract_letters, h, ih]

/-- The clause loop only reads the store. -/
theorem extract_clauses_st_run (ms : List (Text × Text)) (seen : List Text)
    (pd : ParsedDocument) :
    (extract_clauses_st ms seen).run pd = (extract_clauses pd ms seen, pd) := by
  induction ms generalizing seen with
  | nil => simp [extract_clauses_st, extract_clauses]
  | cons m rest ih =>
    obtain ⟨kind, sub⟩ := m
    by_cases hs : pyStrip (kind ++ ' ' :: (if sub = [] then [] else sub)) ∈ seen
    · simp [extract_clauses_st, extract_clauses, hs, ih]
    · simp [extract_clauses_st, extract_clauses, hs, ih, find_page_st]

/-- C9: metadata extraction only reads the ParsedDocument — running the
state-threaded body of `extract_legal_metadata` on any document store
returns the metadata of the pure embedding and leaves the store exactly as
it was. -/
theorem C9_no_mutation (tagger : Text → List Ent) (pd : ParsedDocument) (name : Text) :
    (extract_legal_metadata_st tagger name).run pd = (extract_legal_metadata tagger pd name, pd) := by
  simp [extract_legal_metadata_st, extract_legal_metadata, all_text_st,
    extract_persons_st_run, extract_letters_st_run, extract_clauses_st_run]

/-- The resolver's result is the sentinel or a page number carried by some
content element. -/
theorem find_page_go_mem (s : Text) (c : List ContentElement) :
    find_page_go s c = -1 ∨ ∃ el ∈ c, find_page_go s c = el.page_number := by
  induction c with
  | nil => exact Or.inl rfl
  | cons el rest ih =>
    by_cases h : isSubstr s (el.text.getD []) = true
    · exact Or.inr ⟨el, List.mem_cons_self el rest, by simp [find_page_go, h]⟩
    · have h' : isSubstr s (el.text.getD []) = false := by simpa using h
      have hstep : find_page_go s (el :: rest) = find_page_go s rest := by
        simp [find_page_go, h']
      rcases ih with h1 | ⟨el', hel', h2⟩
      · exact Or.inl (hstep.trans h1)
      · exact Or.inr ⟨el', List.mem_cons_of_mem el hel', hstep.trans h2⟩

/-- Every element the Page Element Builder emits carries the page number
it was called with. -/
theorem extract_elements_page (p : Page) (n : Int) :
    ∀ el ∈ extract_elements_from_page p n, el.page_number = n := by
  intro el hel
  simp only [extract_elements_from_page, List.mem_append, List.mem_filterMap, List.mem_map,
    List.mem_singleton] at hel
  rcases hel with (⟨w, hw, hsome⟩ | ⟨tb, htb, rfl⟩) | rfl
  · by_cases hz : pyStrip w.text = []
    · rw [if_pos hz] at hsome
      exact Option.noConfusion hsome
    · rw [if_neg hz] at hsome
      cases Option.some.inj hsome
      rfl
  · rfl
  · rfl

/-- Every element of the assembled content list carries a page number in
`[start + 1, start + number of pages]`. -/
theorem parse_document_go_bounds (pages : List Page) :
    ∀ start : Nat, ∀ el ∈ parse_document_go start pages,
      (start : Int) + 1 ≤ el.page_number ∧ el.page_number ≤ (start : Int) + pages.length := by
  induction pages with
  | nil => intro start el hel; exact absurd hel (List.not_mem_nil el)
  | cons p rest ih =>
    intro start el hel
    rcases List.mem_append.mp hel with h | h
    · have := extract_elements_page p ((start : Int) + 1) el h
      rw [this]
      constructor
      · omega
      · have : (0 : Int) ≤ rest.length := Int.ofNat_nonneg rest.length
        simp only [List.length_cons]
        omega
    · obtain ⟨h1, h2⟩ := ih (start + 1) el h
      constructor
      · omega
      · simp only [List.length_cons]
        omega

/-- What `find_page` can return against an assembled document: the
sentinel, or a 1-based page index of the document carried by one of its
elements. -/
theorem find_page_parse_document (s : Text) (pages : List Page) :
    find_page s (parse_document pages) = -1 ∨
      (1 ≤ find_page s (parse_document pages) ∧
       find_page s (parse_document pages) ≤ (pages.length : Int) ∧
       ∃ el ∈ (parse_document pages).content,
         el.page_number = find_page s (parse_document pages)) := by
  rcases find_page_go_mem s (parse_document pages).content with h | ⟨el, hel, h⟩
  · exact Or.inl h
  · obtain ⟨h1, h2⟩ := parse_document_go_bounds pages 0 el hel
    refine Or.inr ⟨?_, ?_, el, hel, h.symm⟩
    · rw [find_page, h]
      omega
    · rw [find_page, h]
      omega

/-- Every person record's page is a resolver result. -/
theorem extract_persons_pages (pd : ParsedDocument) (ents : List Ent) (seen : List Text) :
    ∀ r ∈ extract_persons pd ents seen, ∃ s, r.page_number = find_page s pd := by
  induction ents generalizing seen with
  | nil => intro r hr; exact absurd hr (List.not_mem_nil r)
  | cons e rest ih =>
    intro r hr
    by_cases hl : e.label = ['P', 'E', 'R', 'S', 'O', 'N']
    · by_cases hv : is_valid_name e.text = true
      · by_cases hs : pyStrip e.text ∈ seen
        · rw [show extract_persons pd (e :: rest) seen = extract_persons pd rest seen by
            simp [extract_persons, hl, hv, hs]] at hr
          exact ih seen r hr
        · rw [show extract_persons pd (e :: rest) seen =
              ⟨pyStrip e.text, find_page (pyStrip e.text) pd⟩ ::
                extract_persons pd rest (pyStrip e.text :: seen) by
            simp [extract_persons, hl, hv, hs]] at hr
          rcases List.mem_cons.mp hr with rfl | hr'
          · exact ⟨pyStrip e.text, rfl⟩
          · exact ih (pyStrip e.text :: seen) r hr'
      · rw [show extract_persons pd (e :: rest) seen = extract_persons pd rest seen by
          simp [extract_persons, hv]] at hr
        exact ih seen r hr
    · rw [show extract_persons pd (e :: rest) seen = extract_persons pd rest seen by
        simp [extract_persons, hl]] at hr
      exact ih seen r hr

/-- Every letter record's page is a resolver result. -/
theorem extract_letters_pages (pd : ParsedDocument) (ms : List Text) :
    ∀ r ∈ extract_letters pd ms, ∃ s, r.page_number = find_page s pd := by
  induction ms with
  | nil => intro r hr; exact absurd hr (List.not_mem_nil r)
  | cons m rest ih =>
    intro r hr
    by_cases h : is_valid_name m = true
    · rw [show extract_letters pd (m :: rest) =
          ⟨m, find_page m pd⟩ :: extract_letters pd rest by simp [extract_letters, h]] at hr
      rcases List.mem_cons.mp hr with rfl | hr'
      · exact ⟨m, rfl⟩
      · exact ih r hr'
    · rw [show extract_letters pd (m :: rest) = extract_letters pd rest by
        simp [extract_letters, h]] at hr
      exact ih r hr

/-- Every clause record's page is a resolver result. -/
theorem extract_clauses_pages (pd : ParsedDocument) (ms : List (Text × Text)) (seen : List Text) :
    ∀ r ∈ extract_clauses pd ms seen, ∃ s, r.page_number = find_page s pd := by
  induction ms generalizing seen with
  | nil => intro r hr; exact absurd hr (List.not_mem_nil r)
  | cons m rest ih =>
    obtain ⟨kind, sub⟩ := m
    intro r hr
    by_cases hs : pyStrip (kind ++ ' ' :: (if sub = [] then [] else sub)) ∈ seen
    · rw [show extract_clauses pd ((kind, sub) :: rest) seen = extract_clauses pd rest seen by
        simp [extract_clauses, hs]] at hr
      exact ih seen r hr
    · rw [show extract_clauses pd ((kind, sub) :: rest) seen =
          ⟨pyStrip (kind ++ ' ' :: (if sub = [] then [] else sub)), pyLower kind,
            find_page (pyStrip (kind ++ ' ' :: (if sub = [] then [] else sub))) pd⟩ ::
            extract_clauses pd rest
              (pyStrip (kind ++ ' ' :: (if sub = [] then [] else sub)) :: seen) by
        simp [extract_clauses, hs]] at hr
      rcases List.mem_cons.mp hr with rfl | hr'
      · exact ⟨pyStrip (kind ++ ' ' :: (if sub = [] then [] else sub)), rfl⟩
      · exact ih _ r hr'

/-- C5: for every assembled document (pages numbered 1..n in order) and
every extracted reference — person, letter, or clause/article/act — the
reference's `page_number` is the sentinel `-1` or a valid 1-based page
index carried by some content element of the document. -/
theorem C5_page_invariant (tagger : Text → List Ent) (pages : List Page) (name : Text) :
    (∀ r ∈ (extract_legal_metadata tagger (parse_document pages) name).references.persons,
      r.page_number = -1 ∨
        (1 ≤ r.page_number ∧ r.page_number ≤ (pages.length : Int) ∧
         ∃ el ∈ (parse_document pages).content, el.page_number = r.page_number)) ∧
    (∀ r ∈ (extract_legal_metadata tagger
        (parse_document pages) name).references.letters_mentioned,
      r.page_number = -1 ∨
        (1 ≤ r.page_number ∧ r.page_number ≤ (pages.length : Int) ∧
         ∃ el ∈ (parse_document pages).content, el.page_number = r.page_number)) ∧
    (∀ r ∈ (extract_legal_metadata tagger
        (parse_document pages) name).references.laws_clauses_articles_acts,
      r.page_number = -1 ∨
        (1 ≤ r.page_number ∧ r.page_number ≤ (pages.length : Int) ∧
         ∃ el ∈ (parse_document pages).content, el.page_number = r.page_number)) := by
  refine ⟨fun r hr => ?_, fun r hr => ?_, fun r hr => ?_⟩
  · obtain ⟨s, hs⟩ := extract_persons_pages (parse_document pages)
      (tagger (all_text_of (parse_document pages))) [] r hr
    rw [hs]
    exact find_page_parse_document s pages
  · obtain ⟨s, hs⟩ := extract_letters_pages (parse_document pages)
      (findall_letters (all_text_of (parse_document pages))) r hr
    rw [hs]
    exact find_page_parse_document s pages
  · obtain ⟨s, hs⟩ := extract_clauses_pages (parse_document pages)
      (findall_clauses (all_text_of (parse_document pages))) [] r hr
    rw [hs]
    exact find_page_parse_document s pages

/-- Elements built with a `figure` type carry no text key. -/
theorem figure_elements_no_text (p : Page) (n : Int) :
    ∀ el ∈ extract_elements_from_page p n, el.type = "figure".toList → el.text = none := by
  intro el hel
  simp only [extract_elements_from_page, List.mem_append, List.mem_filterMap, List.mem_map,
    List.mem_singleton] at hel
  rcases hel with (⟨w, hw, hsome⟩ | ⟨tb, htb, rfl⟩) | rfl
  · by_cases hz : pyStrip w.text = []
    · rw [if_pos hz] at hsome
      exact Option.noConfusion hsome
    · rw [if_neg hz] at hsome
      cases Option.some.inj hsome
      intro h
      have h' : ("paragraph".toList : Text) = "figure".toList := h
      exact absurd h' (by decide)
  · intro h
    have h' : ("table".toList : Text) = "figure".toList := h
    exact absurd h' (by decide)
  · intro _
    rfl

/-- A non-empty snippet is not a substring of the empty text. -/
theorem isSubstr_nonempty_nil (s : Text) (h : s ≠ []) : isSubstr s [] = false := by
  cases s with
  | nil => exact absurd rfl h
  | cons c cs => rfl

/-- Figure fixture used by concrete instantiations. -/
def figFixture : ContentElement :=
  { type := "figure".toList, text := none, html := none,
    image_filename := some "page_1.png".toList, caption := some [], page_number := 1,
    metadata := none }

/-- Page fixture used by concrete instantiations. -/
def emptyPage : Page :=
  ⟨[], [], none⟩

/-- C10: figure content elements carry no text field; the Page Resolver
substitutes the empty string for a missing text field, so for a non-empty
fragment the scan is unaffected by the elements without a text key (in
particular it never resolves a page through a figure); and each figure
contributes only an empty string to the space-joined whole-document
text. -/
theorem C10_figures_no_text (page : Page) (n : Int) (pages : List Page) (snippet : Text)
    (content : List ContentElement) :
    (∀ el ∈ extract_elements_from_page page n, el.type = "figure".toList → el.text = none) ∧
    (snippet ≠ [] →
      find_page snippet ⟨content⟩ =
        find_page snippet ⟨content.filter (fun el => el.text.isSome)⟩) ∧
    (∀ el ∈ (parse_document pages).content, el.type = "figure".toList →
      el.text.getD [] = []) := by
  refine ⟨figure_elements_no_text page n, fun hsnip => ?_, ?_⟩
  · induction content with
    | nil => rfl
    | cons el rest ih =>
      cases htx : el.text with
      | none =>
        have hskip : isSubstr snippet (el.text.getD []) = false := by
          rw [htx]
          exact isSubstr_nonempty_nil snippet hsnip
        have : el.text.isSome = false := by rw [htx]; rfl
        simp only [find_page, find_page_go, hskip, Bool.false_eq_true, if_false,
          List.filter_cons, this]
        exact ih
      | some tx =>
        have : el.text.isSome = true := by rw [htx]; rfl
        simp only [find_page, find_page_go, List.filter_cons, this, if_pos rfl]
        by_cases hsub : isSubstr snippet (el.text.getD []) = true
        · simp [hsub]
        · have hsub' : isSubstr snippet (el.text.getD []) = false := by simpa using hsub
          simp only [hsub', Bool.false_eq_true, if_false]
          exact ih
  · have go : ∀ (ps : List Page) (start : Nat), ∀ el ∈ parse_document_go start ps,
        el.type = "figure".toList → el.text = none := by
      intro ps
      induction ps with
      | nil => intro start el hel; exact absurd hel (List.not_mem_nil el)
      | cons p rest ih =>
        intro start el hel
        rcases List.mem_append.mp hel with h | h
        · exact figure_elements_no_text p ((start : Int) + 1) el h
        · exact ih (start + 1) el h
    intro el hel htype
    rw [go pages 0 el hel htype]
    rfl

/-- Witness for C10, at a non-empty snippet over a content list holding a
figure element (no text key) and a matching paragraph on page 2. -/
theorem C10_figures_no_text_witness :
    (find_page "b".toList ⟨[figFixture, paraEl "abc".toList 2]⟩ =
      find_page "b".toList
        ⟨([figFixture, paraEl "abc".toList 2]).filter (fun el => el.text.isSome)⟩) ∧
    (⟨"figure".toList, none, none, some "page_1.png".toList, some [], 1, none⟩ :
        ContentElement).text.getD [] = [] :=
  ⟨(C10_figures_no_text emptyPage 0 [] "b".toList
      [figFixture, paraEl "abc".toList 2]).2.1 (by decide),
   (C10_figures_no_text emptyPage 0 [emptyPage] "b".toList []).2.2
      ⟨"figure".toList, none, none, some "page_1.png".toList, some [], 1, none⟩
      (by decide) (by decide)⟩

/-- Single-page fixture whose words join to `Letter No. ABC`. -/
def pageFixture : Page :=
  ⟨[⟨"Letter".toList, 0, 0, 0, 0⟩, ⟨"No.".toList, 0, 0, 0, 0⟩, ⟨"ABC".toList, 0, 0, 0, 0⟩],
   [], none⟩

/-- Tagger fixture returning one PERSON span. -/
def taggerFixture : Text → List Ent :=
  fun _ => [⟨"Letter".toList, "PERSON".toList⟩]

/-- Witness for C5, at a one-page document contributing one person and one
letter reference. -/
theorem C5_page_invariant_witness :
    ((⟨"Letter".toList, 1⟩ : PersonReference).page_number = -1 ∨
      (1 ≤ (⟨"Letter".toList, 1⟩ : PersonReference).page_number ∧
       (⟨"Letter".toList, 1⟩ : PersonReference).page_number ≤ (([pageFixture] : List Page).length : Int) ∧
       ∃ el ∈ (parse_document [pageFixture]).content,
         el.page_number = (⟨"Letter".toList, 1⟩ : PersonReference).page_number)) ∧
    ((⟨"ABC".toList, 1⟩ : LetterReference).page_number = -1 ∨
      (1 ≤ (⟨"ABC".toList, 1⟩ : LetterReference).page_number ∧
       (⟨"ABC".toList, 1⟩ : LetterReference).page_number ≤ (([pageFixture] : List Page).length : Int) ∧
       ∃ el ∈ (parse_document [pageFixture]).content,
         el.page_number = (⟨"ABC".toList, 1⟩ : LetterReference).page_number)) :=
  ⟨(C5_page_invariant taggerFixture [pageFixture] "d.pdf".toList).1
      ⟨"Letter".toList, 1⟩ (by decide),
   (C5_page_invariant taggerFixture [pageFixture] "d.pdf".toList).2.1
      ⟨"ABC".toList, 1⟩ (by decide)⟩

/-- Witness for C6, at a PERSON span whose text is exactly the stop-list
term `Contractor`. -/
theorem C6_persons_stoplist_dedup_witness :
    acceptedEnt ⟨"Contractor".toList, "PERSON".toList⟩ = false :=
  C6_persons_stoplist_dedup.2.1 ⟨"Contractor".toList, "PERSON".toList⟩ (Or.inl (by decide))

/-- C1 (divergence witness): the clause extractor renders the reference
without the matched integer part, because the pattern
`(Clause|Article|Act)\s+\d+(\.\d+)?` does not capture `\d+` and
`re.findall` returns only the two capture groups.  Text `Article 5` yields
the reference string `Article` (not `Article 5`); `Clause 4.2` renders as
`Clause .2`, which is not a substring of the source text, so its page
resolves to the sentinel; and the two distinct clauses `4.2` and `7.2`
collapse to a single entry. -/
theorem C1_clause_rendering_drops_number :
    ((extract_legal_metadata stubTagger ⟨[paraEl "Article 5".toList 1]⟩
        "a.pdf".toList).references.laws_clauses_articles_acts =
      [⟨"Article".toList, "article".toList, 1⟩]) ∧
    ((extract_legal_metadata stubTagger ⟨[paraEl "Clause 4.2 and Clause   4.2".toList 1]⟩
        "a.pdf".toList).references.laws_clauses_articles_acts =
      [⟨"Clause .2".toList, "clause".toList, -1⟩]) ∧
    ((extract_legal_metadata stubTagger ⟨[paraEl "Clause 4.2 and Clause 7.2".toList 1]⟩
        "a.pdf".toList).references.laws_clauses_articles_acts =
      [⟨"Clause .2".toList, "clause".toList, -1⟩]) ∧
    "Article".toList ≠ "Article 5".toList ∧
    "Clause .2".toList ≠ "Clause 4.2".toList := by
  refine ⟨by decide, by decide, by decide, by decide, by decide⟩

end App
